import Mathlib

/-! Live-tail polling loop of `axiom stream`.

A shallow embedding of `run` in `internal/cmd/stream/stream.go` (lines 124-187).

Everything that reaches `run` from outside (clock readings, the responses of the
query client, the state of the cancellation and ticker channels at the `select`,
the behaviour of the encoder) is supplied as data: a run is driven by a finite
script of `Tick`s, one per loop iteration. The result is a `Trace` listing every
query that was issued, the output produced for it, and how `run` returned (if it
did within the script).

Timestamps (`time.Time`) are integers counting nanoseconds, so
`t.Add(time.Nanosecond)` is `t + 1`.
-/

namespace Stream

/-! ## Errors -/

/-- Go `error` values as far as `run` inspects them: the two `context` sentinels,
any other leaf error, and wrapping (`fmt.Errorf("...: %w", inner)`, `*url.Error`). -/
inductive GoError where
  | deadlineExceeded
  | canceled
  | other (msg : String)
  | wrap (msg : String) (inner : GoError)
  deriving DecidableEq, Repr

/-- Go `errors.Is(err, target)`: `err` or something in its `Unwrap` chain equals `target`. -/
def errorsIs : GoError → GoError → Bool
  | .wrap msg inner, target =>
      decide (GoError.wrap msg inner = target) || errorsIs inner target
  | err, target => decide (err = target)

/-! ## Data -/

/-- Go `querylegacy.Entry`: one matched event. `Data` is the event payload. -/
structure Entry where
  Time : Int
  SysTime : Int
  RowID : String
  Data : List (String × String)
  deriving DecidableEq, Repr

/-- Go `querylegacy.Query`, the two fields `run` sets. -/
structure Query where
  StartTime : Int
  EndTime : Int
  deriving DecidableEq, Repr

/-- Go `querylegacy.Result`, the field `run` reads. -/
structure Result where
  Matches : List Entry
  deriving DecidableEq, Repr

/-- What `client.Datasets.QueryLegacy` hands back: `res` is a pointer (`none` is
`nil`), `err` an error (`none` is `nil`). Both are independent in the type. -/
structure Response where
  res : Option Result
  err : Option GoError
  deriving DecidableEq, Repr

/-- The argument of `enc.Encode(any)`: either a whole entry or a payload. -/
inductive EncValue where
  | entry (e : Entry)
  | data (d : List (String × String))
  deriving DecidableEq, Repr

/-- One write to `opts.IO.Out()`. -/
inductive OutEvent where
  /-- Line 133: the "Streaming events from dataset" banner. -/
  | banner (dataset : String)
  /-- Lines 173-174: the formatted timestamp followed by a tab. -/
  | timePrefix (t : Int)
  /-- Lines 171 and 175: a call of `enc.Encode`; `result` is the error it returned,
  which the caller discards. -/
  | encode (v : EncValue) (result : Option GoError)
  /-- Line 177: `fmt.Fprintln(opts.IO.Out())`. -/
  | newline
  deriving DecidableEq, Repr

/-! ## The `select` at lines 181-185 -/

/-- The two cases of the `select`. -/
inductive SelectCase where
  | done
  | tick
  deriving DecidableEq, Repr

/-- State of the two channels when the loop reaches the `select`. `pick` is the
case the Go runtime takes when it has a choice: among several ready cases one is
chosen pseudo-randomly, and when none is ready the `select` blocks until the first
of them becomes ready. -/
structure WaitState where
  doneReady : Bool
  tickReady : Bool
  pick : SelectCase
  deriving DecidableEq, Repr

/-- The case the `select` proceeds with. -/
def selectCase (w : WaitState) : SelectCase :=
  match w.doneReady, w.tickReady with
  | true, false => .done
  | false, true => .tick
  | _, _ => w.pick

/-! ## Environment -/

/-- The command options `run` reads. -/
structure Options where
  Dataset : String
  Format : String
  deriving DecidableEq, Repr

/-- What `run` obtains from the factory and the runtime before the loop.
`jsonName` is the value of `iofmt.JSON.String()` (package `pkg/iofmt`). -/
structure Env where
  clientErr : Option GoError
  isStdoutTTY : Bool
  colorEnabled : Bool
  colorEncode : EncValue → Option GoError
  plainEncode : EncValue → Option GoError
  jsonName : String
  startNow : Int

/-- Inputs of one loop iteration: the clock reading used as `EndTime`, the
response of the query, and the channel state at the `select`. -/
structure Tick where
  now : Int
  resp : Response
  wait : WaitState
  deriving DecidableEq, Repr

/-! ## The loop -/

/-- Line 158: the error is non-nil and neither deadline-exceeded nor cancelled. -/
def isFatal (err : Option GoError) : Bool :=
  match err with
  | none => false
  | some e => !errorsIs e .deadlineExceeded && !errorsIs e .canceled

/-- Lines 169-177: the output for one entry. -/
def emitEntry (enc : EncValue → Option GoError) (jsonName : String) (opts : Options)
    (entry : Entry) : List OutEvent :=
  (if opts.Format = jsonName then
    [OutEvent.encode (.entry entry) (enc (.entry entry))]
  else
    [OutEvent.timePrefix entry.Time, OutEvent.encode (.data entry.Data) (enc (.data entry.Data))])
  ++ [OutEvent.newline]

/-- Line 166: the new value of `lastRequest`, given a result with `Matches` non-empty. -/
def lastMatchBound (ms : List Entry) (h : 0 < ms.length) : Int :=
  (ms.get ⟨ms.length - 1, by omega⟩).Time + 1

/-- Lines 165-179: the new `lastRequest`, the entries ranged over, and the output. -/
def processResult (enc : EncValue → Option GoError) (jsonName : String) (opts : Options)
    (lastRequest : Int) (res : Option Result) : Int × List Entry × List OutEvent :=
  match res with
  | none => (lastRequest, [], [])
  | some r =>
    if h : 0 < r.Matches.length then
      (lastMatchBound r.Matches h, r.Matches, r.Matches.flatMap (emitEntry enc jsonName opts))
    else
      (lastRequest, [], [])

/-- How one iteration ends: `run` returns (with an error or `nil`), or loops. -/
inductive Step where
  | ret (err : Option GoError)
  | next
  deriving DecidableEq, Repr

/-- Record of one loop iteration: the query issued, the response received, the
entries ranged over by the `for` at line 168, the output written, and the value
of `lastRequest` when the iteration ends. -/
structure PollRecord where
  query : Query
  resp : Response
  emitted : List Entry
  out : List OutEvent
  lastRequest : Int
  deriving DecidableEq, Repr

/-- Lines 150-185: one iteration of the `for` loop. -/
def loopBody (enc : EncValue → Option GoError) (jsonName : String) (opts : Options)
    (lastRequest : Int) (tk : Tick) : PollRecord × Step :=
  let q : Query := { StartTime := lastRequest, EndTime := tk.now }
  if isFatal tk.resp.err then
    ({ query := q, resp := tk.resp, emitted := [], out := [], lastRequest := lastRequest },
      .ret tk.resp.err)
  else
    let r := processResult enc jsonName opts lastRequest tk.resp.res
    let p : PollRecord :=
      { query := q, resp := tk.resp, emitted := r.2.1, out := r.2.2, lastRequest := r.1 }
    match selectCase tk.wait with
    | .done => (p, .ret none)
    | .tick => (p, .next)

/-- Outcome of the loop over a script. `ret = none`: still looping when the script
ran out; `some none`: returned `nil`; `some (some e)`: returned the error `e`. -/
structure Trace where
  polls : List PollRecord
  ret : Option (Option GoError)
  deriving DecidableEq, Repr

/-- Lines 149-186: the `for` loop, from a given value of `lastRequest`. -/
def runLoop (enc : EncValue → Option GoError) (jsonName : String) (opts : Options) :
    Int → List Tick → Trace
  | _, [] => { polls := [], ret := none }
  | lastRequest, tk :: rest =>
    match loopBody enc jsonName opts lastRequest tk with
    | (p, .ret err) => { polls := [p], ret := some err }
    | (p, .next) =>
      let t := runLoop enc jsonName opts p.lastRequest rest
      { polls := p :: t.polls, ret := t.ret }

/-- Outcome of `run`: what was written before the loop, and the loop's trace. -/
structure Outcome where
  banner : List OutEvent
  trace : Trace

/-- Lines 124-187: `run`. -/
def run (env : Env) (opts : Options) (script : List Tick) : Outcome :=
  match env.clientErr with
  | some err => { banner := [], trace := { polls := [], ret := some (some err) } }
  | none =>
    let banner := if env.isStdoutTTY then [OutEvent.banner opts.Dataset] else []
    let enc := if env.colorEnabled then env.colorEncode else env.plainEncode
    let lastRequest := env.startNow - 1
    { banner := banner, trace := runLoop enc env.jsonName opts lastRequest script }

/-- Everything written to the output by the loop, in order. -/
def Trace.output (t : Trace) : List OutEvent :=
  t.polls.flatMap (fun p => p.out)

/-- The values handed to `enc.Encode`, in order. -/
def encoded : List OutEvent → List EncValue
  | [] => []
  | .encode v _ :: rest => v :: encoded rest
  | _ :: rest => encoded rest

/-- The windows queried, in order. -/
def Trace.windows (t : Trace) : List Query :=
  t.polls.map (fun p => p.query)

/-! ## Fixtures used in examples -/

/-- An entry with timestamp `t` and a one-field payload. -/
def ev (t : Int) : Entry :=
  { Time := t, SysTime := t, RowID := "r", Data := [("msg", "x")] }

/-- A successful response with the given matches. -/
def ok (ms : List Entry) : Response :=
  { res := some { Matches := ms }, err := none }

/-- Channel state: only the ticker has fired. -/
def tickOnly : WaitState := { doneReady := false, tickReady := true, pick := .tick }

/-- Channel state: only the cancellation has fired. -/
def doneOnly : WaitState := { doneReady := true, tickReady := false, pick := .done }

/-- An encoder that never fails. -/
def encOk : EncValue → Option GoError := fun _ => none

/-- An encoder that always fails. -/
def encFail : EncValue → Option GoError := fun _ => some (.other "unsupported value")

/-- Options selecting the structured format. -/
def jsonOpts : Options := { Dataset := "my-logs", Format := "json" }

/-- Options selecting the default tabular format. -/
def tableOpts : Options := { Dataset := "my-logs", Format := "table" }

/-- A default environment: client available, no TTY, no colour, clock at `start`. -/
def envAt (start : Int) : Env :=
  { clientErr := none, isStdoutTTY := false, colorEnabled := false,
    colorEncode := encOk, plainEncode := encOk, jsonName := "json", startNow := start }

/-- The spec's scenario: ticks at 2, 4 and 6; the first poll returns one event at
`t = 1`, the next two return nothing. -/
def scenarioScript : List Tick :=
  [⟨2, ok [ev 1], tickOnly⟩, ⟨4, ok [], tickOnly⟩, ⟨6, ok [], tickOnly⟩]

/-- The value of `lastRequest` after the iterations recorded in `polls`, starting
from `b`. -/
def finalBound (b : Int) (polls : List PollRecord) : Int :=
  match polls.getLast? with
  | some p => p.lastRequest
  | none => b

/-- A response carrying only an error. -/
def failed (e : GoError) : Response := { res := none, err := some e }

/-- A script whose second query fails with an authentication error; the third
tick would return an event if it were ever reached. -/
def fatalScript : List Tick :=
  [⟨2, ok [ev 1], tickOnly⟩, ⟨4, failed (.other "401 unauthorized"), tickOnly⟩,
    ⟨6, ok [ev 5], tickOnly⟩]

/-- A script whose first query comes back with a deadline-exceeded error together
with a non-nil result holding one event. -/
def lateResultScript : List Tick :=
  [⟨2, ⟨some ⟨[ev 1]⟩, some .deadlineExceeded⟩, tickOnly⟩, ⟨4, ok [], tickOnly⟩]

/-- The spec's timeout scenario: the query for `[0,2)` exceeds its deadline and
returns no result. -/
def timeoutScript : List Tick :=
  [⟨2, failed .deadlineExceeded, tickOnly⟩, ⟨4, ok [], tickOnly⟩]

/-- The matches a response carries (none when the result pointer is `nil`). -/
def Response.matches (resp : Response) : List Entry :=
  match resp.res with
  | some r => r.Matches
  | none => []

/-- Every match returned for a poll has its timestamp in the queried window
`[StartTime, EndTime)`. -/
def InWindow (p : PollRecord) : Prop :=
  ∀ e ∈ p.resp.matches, p.query.StartTime ≤ e.Time ∧ e.Time < p.query.EndTime

instance (p : PollRecord) : Decidable (InWindow p) := by
  unfold InWindow; infer_instance

/-- The matches returned for a poll are in non-decreasing timestamp order. -/
def Ordered (p : PollRecord) : Prop :=
  p.resp.matches.Pairwise (fun a c => a.Time ≤ c.Time)

instance (p : PollRecord) : Decidable (Ordered p) := by
  unfold Ordered; infer_instance

/-- Two polls returning events inside their windows, then an idle poll. -/
def busyScript : List Tick :=
  [⟨2, ok [ev 0, ev 1], tickOnly⟩, ⟨4, ok [ev 2, ev 3, ev 3], tickOnly⟩, ⟨6, ok [], tickOnly⟩]

/-- Two idle polls, at times 2 and 4. -/
def idleScript : List Tick :=
  [⟨2, ok [], tickOnly⟩, ⟨4, ok [], tickOnly⟩]

/-- From bound `10`, a successful poll whose only match carries the timestamp `3`,
below the queried window `[10,12)`. -/
def staleScript : List Tick :=
  [⟨12, ok [ev 3], tickOnly⟩, ⟨14, ok [], tickOnly⟩]

/-- An entry whose fields all differ. -/
def richEntry : Entry :=
  { Time := 1, SysTime := 7, RowID := "row-1", Data := [("msg", "x")] }

/-- One poll returning `richEntry`. -/
def richScript : List Tick := [⟨2, ok [richEntry], tickOnly⟩]

/-- Channel state: cancellation has fired and a tick is pending; the runtime's
choice falls on the ticker. -/
def bothPickTick : WaitState := { doneReady := true, tickReady := true, pick := .tick }

/-- A run in which cancellation and a tick are both ready at the first wait step;
the query issued next is cancelled, and then only the cancellation is ready. -/
def raceScript : List Tick :=
  [⟨2, ok [], bothPickTick⟩, ⟨3, failed .canceled, doneOnly⟩]

/-- A run cancelled while its second query is in flight. -/
def cancelScript : List Tick :=
  [⟨2, ok [ev 1], tickOnly⟩, ⟨4, failed (.wrap "query failed" .canceled), doneOnly⟩,
    ⟨6, ok [ev 5], tickOnly⟩]

end Stream

/-! ## `firstSubDomain` (`internal/cmd/auth/auth_login.go`, lines 320-333)

`url.ParseRequestURI` belongs to the Go standard library; it enters as a parameter
giving, for each string, the parsed URL or nothing when parsing fails. -/

namespace Auth

/-- Go `url.URL`, the two fields `firstSubDomain` reads. -/
structure URL where
  Scheme : String
  Host : String
  deriving DecidableEq, Repr

/-- Go `strings.Split` on a one-character separator, over a list of characters:
the pieces between the separators, in order. There is always at least one piece. -/
def splitChars (sep : Char) : List Char → List (List Char)
  | [] => [[]]
  | c :: cs =>
    if c = sep then
      [] :: splitChars sep cs
    else
      match splitChars sep cs with
      | [] => [[c]]
      | p :: ps => (c :: p) :: ps

/-- Go `strings.Split(s, sep)` for a one-character `sep`. -/
def Split (s : String) (sep : Char) : List String :=
  (splitChars sep s.data).map String.mk

/-- Go `strings.TrimLeft(s, cutset)`: `s` without its leading characters that occur
in `cutset`. -/
def TrimLeft (s cutset : String) : String :=
  String.mk (s.data.dropWhile (fun c => cutset.data.contains c))

/-- Lines 320-333: `firstSubDomain`. -/
def firstSubDomain (parseRequestURI : String → Option URL) (s : String) : String :=
  match parseRequestURI s with
  | none => ""
  | some u =>
    let hostRefParts := Split u.Host '.'
    let hostRef :=
      match hostRefParts with
      | [] => ""
      | part :: _ => part
    TrimLeft hostRef u.Scheme

/-- The part of a host before its first `'.'` (the whole host when it has none). -/
def firstLabel (host : String) : String :=
  String.mk (host.data.takeWhile (fun c => c ≠ '.'))

/-- A parser that knows one URL: `https://shop.example.com` has scheme `https` and
host `shop.example.com`; every other string fails to parse. -/
def shopParse (s : String) : Option URL :=
  if s = "https://shop.example.com" then some ⟨"https", "shop.example.com"⟩ else none

end Auth

namespace Stream

/-! ## Basic facts about the loop -/

/-- An iteration queries the window from the current bound to the current time and
records the response it was given. -/
theorem loopBody_query (enc : EncValue → Option GoError) (jn : String) (opts : Options)
    (b : Int) (tk : Tick) :
    (loopBody enc jn opts b tk).1.query = ⟨b, tk.now⟩ ∧
    (loopBody enc jn opts b tk).1.resp = tk.resp := by
  unfold loopBody
  by_cases hf : isFatal tk.resp.err = true
  · simp [hf]
  · simp only [hf]
    cases selectCase tk.wait <;> simp

/-- An iteration whose query fails fatally returns the error and touches nothing. -/
theorem loopBody_fatal (enc : EncValue → Option GoError) (jn : String) (opts : Options)
    (b : Int) (tk : Tick) (hf : isFatal tk.resp.err = true) :
    loopBody enc jn opts b tk =
      (⟨⟨b, tk.now⟩, tk.resp, [], [], b⟩, .ret tk.resp.err) := by
  simp [loopBody, hf]

/-- An iteration whose query does not fail fatally processes the result and then
follows the `select`. -/
theorem loopBody_ok (enc : EncValue → Option GoError) (jn : String) (opts : Options)
    (b : Int) (tk : Tick) (hf : isFatal tk.resp.err = false) :
    loopBody enc jn opts b tk =
      (⟨⟨b, tk.now⟩, tk.resp, (processResult enc jn opts b tk.resp.res).2.1,
          (processResult enc jn opts b tk.resp.res).2.2,
          (processResult enc jn opts b tk.resp.res).1⟩,
        match selectCase tk.wait with
        | .done => .ret none
        | .tick => .next) := by
  unfold loopBody
  simp only [hf]
  cases selectCase tk.wait <;> simp

/-- The loop stops at an iteration that returns. -/
theorem runLoop_cons_ret (enc : EncValue → Option GoError) (jn : String) (opts : Options)
    (b : Int) (tk : Tick) (rest : List Tick) (p : PollRecord) (e : Option GoError)
    (h : loopBody enc jn opts b tk = (p, .ret e)) :
    runLoop enc jn opts b (tk :: rest) = ⟨[p], some e⟩ := by
  simp [runLoop, h]

/-- The loop continues from the bound an iteration leaves behind. -/
theorem runLoop_cons_next (enc : EncValue → Option GoError) (jn : String) (opts : Options)
    (b : Int) (tk : Tick) (rest : List Tick) (p : PollRecord)
    (h : loopBody enc jn opts b tk = (p, .next)) :
    runLoop enc jn opts b (tk :: rest) =
      ⟨p :: (runLoop enc jn opts p.lastRequest rest).polls,
        (runLoop enc jn opts p.lastRequest rest).ret⟩ := by
  simp [runLoop, h]

/-- Every record of a trace is what `loopBody` computes from the record's own window
and response. -/
theorem polls_sound (enc : EncValue → Option GoError) (jn : String) (opts : Options)
    (script : List Tick) (b : Int) (p : PollRecord)
    (hp : p ∈ (runLoop enc jn opts b script).polls) :
    ∃ tk ∈ script, p = (loopBody enc jn opts p.query.StartTime tk).1 ∧
      p.query.EndTime = tk.now ∧ p.resp = tk.resp := by
  induction script generalizing b with
  | nil => simp [runLoop] at hp
  | cons tk rest ih =>
    have hq := loopBody_query enc jn opts b tk
    rcases hlb : loopBody enc jn opts b tk with ⟨r, st⟩
    rw [hlb] at hq
    cases st with
    | ret e =>
      rw [runLoop_cons_ret enc jn opts b tk rest r e hlb] at hp
      simp only [List.mem_singleton] at hp
      subst hp
      refine ⟨tk, List.mem_cons_self _ _, ?_, ?_, hq.2⟩
      · rw [hq.1, hlb]
      · rw [hq.1]
    | next =>
      rw [runLoop_cons_next enc jn opts b tk rest r hlb] at hp
      simp only [List.mem_cons] at hp
      rcases hp with hp | hp
      · subst hp
        refine ⟨tk, List.mem_cons_self _ _, ?_, ?_, hq.2⟩
        · rw [hq.1, hlb]
        · rw [hq.1]
      · obtain ⟨tk2, hmem, h⟩ := ih r.lastRequest hp
        exact ⟨tk2, List.mem_cons_of_mem _ hmem, h⟩

/-- The first window of a trace starts at the initial bound. -/
theorem polls_head (enc : EncValue → Option GoError) (jn : String) (opts : Options)
    (script : List Tick) (b : Int) (p : PollRecord)
    (hp : (runLoop enc jn opts b script).polls.head? = some p) :
    p.query.StartTime = b := by
  cases script with
  | nil => simp [runLoop] at hp
  | cons tk rest =>
    have hq := loopBody_query enc jn opts b tk
    rcases hlb : loopBody enc jn opts b tk with ⟨r, st⟩
    rw [hlb] at hq
    cases st with
    | ret e =>
      rw [runLoop_cons_ret enc jn opts b tk rest r e hlb] at hp
      simp at hp; subst hp; rw [hq.1]
    | next =>
      rw [runLoop_cons_next enc jn opts b tk rest r hlb] at hp
      simp at hp; subst hp; rw [hq.1]

/-- A record followed by another belongs to an iteration that did not return, and
the next window starts at the value `lastRequest` had when that iteration ended. -/
theorem polls_chain (enc : EncValue → Option GoError) (jn : String) (opts : Options)
    (script : List Tick) (b : Int) :
    List.Chain' (fun p q => isFatal p.resp.err = false ∧ q.query.StartTime = p.lastRequest)
      (runLoop enc jn opts b script).polls := by
  induction script generalizing b with
  | nil => simp [runLoop]
  | cons tk rest ih =>
    have hq := loopBody_query enc jn opts b tk
    rcases hlb : loopBody enc jn opts b tk with ⟨r, st⟩
    rw [hlb] at hq
    cases st with
    | ret e =>
      rw [runLoop_cons_ret enc jn opts b tk rest r e hlb]
      simp
    | next =>
      rw [runLoop_cons_next enc jn opts b tk rest r hlb]
      rw [List.chain'_cons']
      refine ⟨?_, ih r.lastRequest⟩
      intro q hqh
      have hh := polls_head enc jn opts rest r.lastRequest q hqh
      refine ⟨?_, hh⟩
      by_cases hf : isFatal tk.resp.err = true
      · rw [loopBody_fatal enc jn opts b tk hf] at hlb
        simp at hlb
      · rw [hq.2]; simpa using hf

/-- Consecutive elements of a chain are related. -/
theorem chain_getElem? {α : Type} {R : α → α → Prop} :
    ∀ (l : List α), List.Chain' R l → ∀ (i : Nat) (p q : α),
      l[i]? = some p → l[i + 1]? = some q → R p q
  | [], _, i, p, q, hp, _ => by simp at hp
  | [_], _, i, p, q, _, hq => by simp at hq
  | a :: c :: l, h, 0, p, q, hp, hq => by
    simp at hp hq
    subst hp; subst hq
    exact (List.chain'_cons.mp h).1
  | a :: c :: l, h, i + 1, p, q, hp, hq => by
    rw [List.getElem?_cons_succ] at hp hq
    exact chain_getElem? (c :: l) (List.chain'_cons.mp h).2 i p q hp hq

/-- The `i`-th record of a trace comes from the `i`-th tick of the script. -/
theorem polls_script (enc : EncValue → Option GoError) (jn : String) (opts : Options)
    (script : List Tick) (b : Int) (i : Nat) (p : PollRecord)
    (hp : (runLoop enc jn opts b script).polls[i]? = some p) :
    ∃ tk, script[i]? = some tk ∧ p.resp = tk.resp ∧ p.query.EndTime = tk.now := by
  induction script generalizing b i with
  | nil => simp [runLoop] at hp
  | cons tk rest ih =>
    have hq := loopBody_query enc jn opts b tk
    rcases hlb : loopBody enc jn opts b tk with ⟨r, st⟩
    rw [hlb] at hq
    cases st with
    | ret e =>
      rw [runLoop_cons_ret enc jn opts b tk rest r e hlb] at hp
      cases i with
      | zero =>
        simp at hp; subst hp
        exact ⟨tk, by simp, hq.2, by rw [hq.1]⟩
      | succ j => simp at hp
    | next =>
      rw [runLoop_cons_next enc jn opts b tk rest r hlb] at hp
      cases i with
      | zero =>
        simp at hp; subst hp
        exact ⟨tk, by simp, hq.2, by rw [hq.1]⟩
      | succ j =>
        simp only [List.getElem?_cons_succ] at hp
        obtain ⟨tk2, h1, h2⟩ := ih r.lastRequest j hp
        exact ⟨tk2, by simpa using h1, h2⟩

/-- A `nil` result changes nothing. -/
theorem processResult_none (enc : EncValue → Option GoError) (jn : String) (opts : Options)
    (b : Int) : processResult enc jn opts b none = (b, [], []) := rfl

/-- A result without matches changes nothing. -/
theorem processResult_empty (enc : EncValue → Option GoError) (jn : String) (opts : Options)
    (b : Int) : processResult enc jn opts b (some ⟨[]⟩) = (b, [], []) := rfl

/-- The bound computed at line 166 is the last match's timestamp plus one. -/
theorem lastMatchBound_eq (ms : List Entry) (h : 0 < ms.length) (last : Entry)
    (hl : ms.getLast? = some last) : lastMatchBound ms h = last.Time + 1 := by
  have hne : ms ≠ [] := by
    intro h0; subst h0; simp at h
  rw [List.getLast?_eq_getLast _ hne] at hl
  simp only [Option.some.injEq] at hl
  rw [← hl, List.getLast_eq_getElem]
  rfl

/-- A result with matches moves the bound past the last of them and emits them all. -/
theorem processResult_matches (enc : EncValue → Option GoError) (jn : String) (opts : Options)
    (b : Int) (r : Result) (last : Entry) (hl : r.Matches.getLast? = some last) :
    processResult enc jn opts b (some r) =
      (last.Time + 1, r.Matches, r.Matches.flatMap (emitEntry enc jn opts)) := by
  have hpos : 0 < r.Matches.length := by
    rcases hm : r.Matches with _ | ⟨a, l⟩
    · rw [hm] at hl; simp at hl
    · simp
  simp only [processResult, hpos, dite_true]
  rw [lastMatchBound_eq r.Matches hpos last hl]

/-! ## Splitting a run -/

/-- The final bound of a non-empty list of polls does not depend on the initial one. -/
theorem finalBound_cons (b : Int) (p : PollRecord) (ps : List PollRecord) :
    finalBound b (p :: ps) = finalBound p.lastRequest ps := by
  cases ps with
  | nil => simp [finalBound]
  | cons q qs =>
    simp only [finalBound, List.getLast?_cons_cons]
    rw [List.getLast?_eq_getLast _ (List.cons_ne_nil q qs)]

/-- A run that is still looping after `pre` continues over `post` from the bound
reached; a run that returned during `pre` ignores `post`. -/
theorem runLoop_append (enc : EncValue → Option GoError) (jn : String) (opts : Options)
    (pre post : List Tick) (b : Int) :
    runLoop enc jn opts b (pre ++ post) =
      if (runLoop enc jn opts b pre).ret = none then
        ⟨(runLoop enc jn opts b pre).polls ++
            (runLoop enc jn opts (finalBound b (runLoop enc jn opts b pre).polls) post).polls,
          (runLoop enc jn opts (finalBound b (runLoop enc jn opts b pre).polls) post).ret⟩
      else runLoop enc jn opts b pre := by
  induction pre generalizing b with
  | nil => simp [runLoop, finalBound]
  | cons tk rest ih =>
    rcases hlb : loopBody enc jn opts b tk with ⟨r, st⟩
    cases st with
    | ret e =>
      rw [List.cons_append, runLoop_cons_ret enc jn opts b tk _ r e hlb,
        runLoop_cons_ret enc jn opts b tk _ r e hlb]
      simp
    | next =>
      rw [List.cons_append, runLoop_cons_next enc jn opts b tk _ r hlb,
        runLoop_cons_next enc jn opts b tk _ r hlb, ih r.lastRequest]
      simp only [finalBound_cons]
      split <;> simp

/-! ## How a run returns -/

/-- A trace without polls belongs to a loop that has not returned. -/
theorem ret_of_polls_nil (enc : EncValue → Option GoError) (jn : String) (opts : Options)
    (script : List Tick) (b : Int) (h : (runLoop enc jn opts b script).polls = []) :
    (runLoop enc jn opts b script).ret = none := by
  cases script with
  | nil => rfl
  | cons tk rest =>
    rcases hlb : loopBody enc jn opts b tk with ⟨r, st⟩
    cases st with
    | ret e => rw [runLoop_cons_ret enc jn opts b tk rest r e hlb] at h; simp at h
    | next => rw [runLoop_cons_next enc jn opts b tk rest r hlb] at h; simp at h

/-- An iteration returns an error only when its query failed fatally, and then it
returns that error. -/
theorem loopBody_ret_error (enc : EncValue → Option GoError) (jn : String) (opts : Options)
    (b : Int) (tk : Tick) (r : PollRecord) (e : GoError)
    (h : loopBody enc jn opts b tk = (r, .ret (some e))) :
    tk.resp.err = some e ∧ isFatal tk.resp.err = true := by
  by_cases hf : isFatal tk.resp.err = true
  · rw [loopBody_fatal enc jn opts b tk hf] at h
    simp only [Prod.mk.injEq, Step.ret.injEq] at h
    exact ⟨h.2, hf⟩
  · have hf2 : isFatal tk.resp.err = false := by simpa using hf
    rw [loopBody_ok enc jn opts b tk hf2] at h
    cases hs : selectCase tk.wait <;> rw [hs] at h <;> simp at h

/-- When a run returns an error, its last poll is the one whose query failed fatally
with that error. -/
theorem ret_error_last (enc : EncValue → Option GoError) (jn : String) (opts : Options)
    (script : List Tick) (b : Int) (e : GoError) (i : Nat) (p : PollRecord)
    (hret : (runLoop enc jn opts b script).ret = some (some e))
    (hp : (runLoop enc jn opts b script).polls[i]? = some p)
    (hi : i + 1 = (runLoop enc jn opts b script).polls.length) :
    p.resp.err = some e ∧ isFatal p.resp.err = true := by
  induction script generalizing b i with
  | nil => simp [runLoop] at hp
  | cons tk rest ih =>
    have hq := loopBody_query enc jn opts b tk
    rcases hlb : loopBody enc jn opts b tk with ⟨r, st⟩
    rw [hlb] at hq
    cases st with
    | ret e2 =>
      rw [runLoop_cons_ret enc jn opts b tk rest r e2 hlb] at hret hp hi
      simp only [Option.some.injEq] at hret
      subst hret
      simp only [List.length_singleton] at hi
      have hi0 : i = 0 := by omega
      subst hi0
      simp only [List.getElem?_cons_zero, Option.some.injEq] at hp
      subst hp
      rw [hq.2]
      exact loopBody_ret_error enc jn opts b tk r e hlb
    | next =>
      rw [runLoop_cons_next enc jn opts b tk rest r hlb] at hret hp hi
      simp only at hret
      cases i with
      | zero =>
        simp only [List.length_cons] at hi
        have hnil : (runLoop enc jn opts r.lastRequest rest).polls = [] :=
          List.length_eq_zero.mp (by omega)
        rw [ret_of_polls_nil enc jn opts rest r.lastRequest hnil] at hret
        simp at hret
      | succ j =>
        simp only [List.getElem?_cons_succ] at hp
        simp only [List.length_cons] at hi
        exact ih r.lastRequest j hret hp (by omega)

/-! ## What a poll record holds -/

/-- The three components of `processResult` in terms of the matches carried. -/
theorem processResult_eq (enc : EncValue → Option GoError) (jn : String) (opts : Options)
    (b : Int) (resp : Response) :
    processResult enc jn opts b resp.res =
      ((match resp.matches.getLast? with
        | some last => last.Time + 1
        | none => b),
        resp.matches, resp.matches.flatMap (emitEntry enc jn opts)) := by
  rcases hres : resp.res with _ | r
  · simp [Response.matches, hres, processResult]
  · rcases hl : r.Matches.getLast? with _ | last
    · have hnil : r.Matches = [] := List.getLast?_eq_none_iff.mp hl
      have hr : r = ⟨[]⟩ := by
        cases r
        simp only at hnil
        rw [hnil]
      subst hr
      simp [Response.matches, hres, processResult]
    · rw [processResult_matches enc jn opts b r last hl]
      simp [Response.matches, hres, hl]

/-- The content of a record: a poll whose query failed fatally ranges over nothing;
otherwise it ranges over the returned matches. The output is what `emitEntry` writes
for the entries ranged over, and `lastRequest` ends as the last of them plus one
nanosecond, or unchanged when there are none. -/
theorem poll_facts (enc : EncValue → Option GoError) (jn : String) (opts : Options)
    (script : List Tick) (b : Int) (p : PollRecord)
    (hp : p ∈ (runLoop enc jn opts b script).polls) :
    p.emitted = (if isFatal p.resp.err then [] else p.resp.matches) ∧
    p.out = p.emitted.flatMap (emitEntry enc jn opts) ∧
    p.lastRequest = (match p.emitted.getLast? with
      | some last => last.Time + 1
      | none => p.query.StartTime) := by
  obtain ⟨tk, -, hsound, -, hresp⟩ := polls_sound enc jn opts script b p hp
  by_cases hf : isFatal tk.resp.err = true
  · rw [loopBody_fatal enc jn opts _ tk hf] at hsound
    have h1 : p.emitted = [] := congrArg PollRecord.emitted hsound
    have h2 : p.out = [] := congrArg PollRecord.out hsound
    have h3 : p.lastRequest = p.query.StartTime := congrArg PollRecord.lastRequest hsound
    have hf3 : isFatal p.resp.err = true := by rw [hresp]; exact hf
    refine ⟨?_, ?_, ?_⟩
    · rw [hf3, h1]; simp
    · rw [h1, h2]; simp
    · rw [h1, h3]; simp
  · have hf2 : isFatal tk.resp.err = false := by simpa using hf
    rw [loopBody_ok enc jn opts _ tk hf2, processResult_eq, ← hresp] at hsound
    have h1 : p.emitted = p.resp.matches := congrArg PollRecord.emitted hsound
    have h2 : p.out = p.resp.matches.flatMap (emitEntry enc jn opts) :=
      congrArg PollRecord.out hsound
    have h3 : p.lastRequest = (match p.resp.matches.getLast? with
        | some last => last.Time + 1
        | none => p.query.StartTime) := congrArg PollRecord.lastRequest hsound
    have hf3 : isFatal p.resp.err = false := by rw [hresp]; exact hf2
    refine ⟨?_, ?_, ?_⟩
    · rw [hf3, h1]; simp
    · rw [h1, h2]
    · rw [h1, h3]

/-! ## Bounds under well-behaved responses -/

/-- Every entry a poll ranged over is one of the matches it was given. -/
theorem emitted_subset (enc : EncValue → Option GoError) (jn : String) (opts : Options)
    (script : List Tick) (b : Int) (p : PollRecord)
    (hp : p ∈ (runLoop enc jn opts b script).polls) (a : Entry) (ha : a ∈ p.emitted) :
    a ∈ p.resp.matches := by
  have h := (poll_facts enc jn opts script b p hp).1
  rw [h] at ha
  by_cases hf : isFatal p.resp.err = true
  · simp [hf] at ha
  · simpa [hf] using ha

/-- In a list sorted by a reflexive relation every element is related to the last. -/
theorem pairwise_le_last (l : List Entry) (h : l.Pairwise (fun a c => a.Time ≤ c.Time))
    (a last : Entry) (ha : a ∈ l) (hl : l.getLast? = some last) : a.Time ≤ last.Time := by
  obtain ⟨ys, rfl⟩ := List.getLast?_eq_some_iff.mp hl
  rw [List.pairwise_append] at h
  rcases List.mem_append.mp ha with h1 | h1
  · exact h.2.2 a h1 last (List.mem_singleton_self last)
  · rw [List.mem_singleton.mp h1]

/-- With matches in timestamp order, every entry a poll ranged over lies strictly
below the bound the poll leaves behind. -/
theorem emitted_lt_bound (enc : EncValue → Option GoError) (jn : String) (opts : Options)
    (script : List Tick) (b : Int) (p : PollRecord)
    (hp : p ∈ (runLoop enc jn opts b script).polls) (ho : Ordered p)
    (a : Entry) (ha : a ∈ p.emitted) : a.Time < p.lastRequest := by
  have hfacts := poll_facts enc jn opts script b p hp
  have hem : p.emitted = p.resp.matches := by
    have h := hfacts.1
    by_cases hf : isFatal p.resp.err = true
    · rw [h] at ha; simp [hf] at ha
    · rw [h]; simp [hf]
  rw [hfacts.2.2]
  rcases hl : p.emitted.getLast? with _ | last
  · rw [List.getLast?_eq_none_iff.mp hl] at ha
    simp at ha
  · simp only
    have hle := pairwise_le_last p.emitted (by rw [hem]; exact ho) a last ha hl
    omega

/-- With matches inside the queried window, a poll never lowers the bound. -/
theorem start_le_bound (enc : EncValue → Option GoError) (jn : String) (opts : Options)
    (script : List Tick) (b : Int) (p : PollRecord)
    (hp : p ∈ (runLoop enc jn opts b script).polls) (hw : InWindow p) :
    p.query.StartTime ≤ p.lastRequest := by
  rw [(poll_facts enc jn opts script b p hp).2.2]
  rcases hl : p.emitted.getLast? with _ | last
  · simp
  · simp only
    have hm := emitted_subset enc jn opts script b p hp last (List.mem_of_getLast?_eq_some hl)
    have := (hw last hm).1
    omega

/-- Along a chain of polls none of which lowers the bound, every window starts at or
after a given instant as soon as the first one does. -/
theorem chain_start_ge :
    ∀ (l : List PollRecord) (x : Int),
      List.Chain' (fun p q => isFatal p.resp.err = false ∧ q.query.StartTime = p.lastRequest) l →
      (∀ p ∈ l, p.query.StartTime ≤ p.lastRequest) →
      (∀ p, l.head? = some p → x ≤ p.query.StartTime) →
      ∀ q ∈ l, x ≤ q.query.StartTime
  | [], _, _, _, _, q, hq => by simp at hq
  | a :: l, x, hc, hm, hh, q, hq => by
    have hxa : x ≤ a.query.StartTime := hh a rfl
    rcases List.mem_cons.mp hq with h | h
    · rw [h]; exact hxa
    · have haa := hm a (List.mem_cons_self _ _)
      have := chain_start_ge l a.lastRequest (List.chain'_cons'.mp hc).2
        (fun p hpl => hm p (List.mem_cons_of_mem _ hpl))
        (fun p hpl => by rw [((List.chain'_cons'.mp hc).1 p hpl).2]) q h
      omega

/-- Along such a chain every later window starts at or after the bound an earlier poll
left behind. -/
theorem chain_pairwise :
    ∀ (l : List PollRecord),
      List.Chain' (fun p q => isFatal p.resp.err = false ∧ q.query.StartTime = p.lastRequest) l →
      (∀ p ∈ l, p.query.StartTime ≤ p.lastRequest) →
      l.Pairwise (fun p q => p.lastRequest ≤ q.query.StartTime)
  | [], _, _ => List.Pairwise.nil
  | a :: l, hc, hm => by
    rw [List.pairwise_cons]
    constructor
    · exact chain_start_ge l a.lastRequest (List.chain'_cons'.mp hc).2
        (fun p hpl => hm p (List.mem_cons_of_mem _ hpl))
        (fun p hpl => by rw [((List.chain'_cons'.mp hc).1 p hpl).2])
    · exact chain_pairwise l (List.chain'_cons'.mp hc).2
        (fun p hpl => hm p (List.mem_cons_of_mem _ hpl))

/-- Elements at increasing positions of a pairwise-related list are related. -/
theorem pairwise_getElem? {α : Type} {R : α → α → Prop} (l : List α) (h : l.Pairwise R)
    (i j : Nat) (p q : α) (hij : i < j) (hp : l[i]? = some p) (hq : l[j]? = some q) :
    R p q := by
  obtain ⟨hi, rfl⟩ := List.getElem?_eq_some.mp hp
  obtain ⟨hj, rfl⟩ := List.getElem?_eq_some.mp hq
  exact List.pairwise_iff_getElem.mp h i j hi hj hij

/-! ## The values handed to the encoder -/

/-- The encoder calls of two outputs written one after the other. -/
theorem encoded_append (xs ys : List OutEvent) :
    encoded (xs ++ ys) = encoded xs ++ encoded ys := by
  induction xs with
  | nil => rfl
  | cons x xs ih => cases x <;> simp [encoded, ih]

/-- One entry gives one encoder call: the entry in the structured format, its payload
otherwise. -/
theorem encoded_emitEntry (enc : EncValue → Option GoError) (jn : String) (opts : Options)
    (e : Entry) :
    encoded (emitEntry enc jn opts e) =
      [if opts.Format = jn then EncValue.entry e else EncValue.data e.Data] := by
  unfold emitEntry
  split <;> simp [encoded]

/-- The encoder calls for a list of entries, one per entry and in order. -/
theorem encoded_flatMap_emitEntry (enc : EncValue → Option GoError) (jn : String)
    (opts : Options) (es : List Entry) :
    encoded (es.flatMap (emitEntry enc jn opts)) =
      es.map (fun e => if opts.Format = jn then EncValue.entry e else EncValue.data e.Data) := by
  induction es with
  | nil => rfl
  | cons e es ih =>
    rw [List.flatMap_cons, encoded_append, encoded_emitEntry, ih]
    rfl

/-- The output of a list of polls taken from a trace is what `emitEntry` writes for
the entries ranged over, poll after poll. -/
theorem output_eq_flatMap (enc : EncValue → Option GoError) (jn : String) (opts : Options)
    (script : List Tick) (b : Int) :
    ∀ (ps : List PollRecord), (∀ p ∈ ps, p ∈ (runLoop enc jn opts b script).polls) →
      ps.flatMap (fun p => p.out) =
        (ps.flatMap (fun p => p.emitted)).flatMap (emitEntry enc jn opts)
  | [], _ => rfl
  | p :: ps, h => by
    rw [List.flatMap_cons, List.flatMap_cons, List.flatMap_append,
      output_eq_flatMap enc jn opts script b ps (fun q hq => h q (List.mem_cons_of_mem _ hq)),
      (poll_facts enc jn opts script b p (h p (List.mem_cons_self _ _))).2.1]

/-- The entries ranged over by a list of polls taken from a trace are the matches of
those polls whose query did not fail fatally. -/
theorem emitted_eq_flatMap (enc : EncValue → Option GoError) (jn : String) (opts : Options)
    (script : List Tick) (b : Int) :
    ∀ (ps : List PollRecord), (∀ p ∈ ps, p ∈ (runLoop enc jn opts b script).polls) →
      ps.flatMap (fun p => p.emitted) =
        ps.flatMap (fun p => if isFatal p.resp.err then [] else p.resp.matches)
  | [], _ => rfl
  | p :: ps, h => by
    rw [List.flatMap_cons, List.flatMap_cons,
      emitted_eq_flatMap enc jn opts script b ps (fun q hq => h q (List.mem_cons_of_mem _ hq)),
      (poll_facts enc jn opts script b p (h p (List.mem_cons_self _ _))).1]

/-- When every query that fails fatally comes back without matches, the entries
ranged over by the polls of a trace are the matches of all its polls. -/
theorem emitted_eq_matches (enc : EncValue → Option GoError) (jn : String) (opts : Options)
    (script : List Tick) (b : Int) :
    ∀ (ps : List PollRecord), (∀ p ∈ ps, p ∈ (runLoop enc jn opts b script).polls) →
      (∀ p ∈ ps, isFatal p.resp.err = true → p.resp.matches = []) →
      ps.flatMap (fun p => p.emitted) = ps.flatMap (fun p => p.resp.matches)
  | [], _, _ => rfl
  | p :: ps, h, hnil => by
    rw [List.flatMap_cons, List.flatMap_cons,
      emitted_eq_matches enc jn opts script b ps (fun q hq => h q (List.mem_cons_of_mem _ hq))
        (fun q hq => hnil q (List.mem_cons_of_mem _ hq)),
      (poll_facts enc jn opts script b p (h p (List.mem_cons_self _ _))).1]
    by_cases hf : isFatal p.resp.err = true
    · rw [hnil p (List.mem_cons_self _ _) hf]
      simp
    · simp [hf]

/-! ## Consecutive windows -/

/-- With matches inside the queried window, a poll on a window that is not inverted
leaves the bound at or before the window's end. -/
theorem bound_le_end (enc : EncValue → Option GoError) (jn : String) (opts : Options)
    (script : List Tick) (b : Int) (p : PollRecord)
    (hp : p ∈ (runLoop enc jn opts b script).polls) (hw : InWindow p)
    (hse : p.query.StartTime ≤ p.query.EndTime) :
    p.lastRequest ≤ p.query.EndTime := by
  rw [(poll_facts enc jn opts script b p hp).2.2]
  rcases hl : p.emitted.getLast? with _ | last
  · exact hse
  · simp only
    have hm := emitted_subset enc jn opts script b p hp last (List.mem_of_getLast?_eq_some hl)
    have := (hw last hm).2
    omega

/-- Along a chain of polls queried at non-decreasing times, each window starts at or
before the end of the previous one as soon as the first window is not inverted. -/
theorem chain_start_le_end :
    ∀ (l : List PollRecord),
      List.Chain' (fun p q => isFatal p.resp.err = false ∧ q.query.StartTime = p.lastRequest) l →
      (∀ p ∈ l, p.query.StartTime ≤ p.query.EndTime → p.lastRequest ≤ p.query.EndTime) →
      List.Chain' (fun p q => p.query.EndTime ≤ q.query.EndTime) l →
      (∀ p, l.head? = some p → p.query.StartTime ≤ p.query.EndTime) →
      List.Chain' (fun p q => q.query.StartTime ≤ p.query.EndTime) l
  | [], _, _, _, _ => List.chain'_nil
  | [_], _, _, _, _ => List.chain'_singleton _
  | a :: c :: l, hc, hb, ht, hh => by
    have ha : a.query.StartTime ≤ a.query.EndTime := hh a rfl
    have hab := hb a (List.mem_cons_self _ _) ha
    have hca : c.query.StartTime = a.lastRequest := (List.chain'_cons.mp hc).1.2
    have hac : a.query.EndTime ≤ c.query.EndTime := (List.chain'_cons.mp ht).1
    rw [List.chain'_cons]
    refine ⟨by omega, ?_⟩
    apply chain_start_le_end (c :: l) (List.chain'_cons.mp hc).2
      (fun p hpl => hb p (List.mem_cons_of_mem _ hpl)) (List.chain'_cons.mp ht).2
    intro p hp
    simp only [List.head?_cons, Option.some.injEq] at hp
    subst hp
    omega

/-- Windows that each start at or before the end of the previous one cover every
instant between the start of the first and the end of the last. -/
theorem cover_of_chain :
    ∀ (l : List PollRecord) (x : Int) (last : PollRecord),
      List.Chain' (fun p q => q.query.StartTime ≤ p.query.EndTime) l →
      (∀ p, l.head? = some p → p.query.StartTime ≤ x) →
      l.getLast? = some last → x < last.query.EndTime →
      ∃ p ∈ l, p.query.StartTime ≤ x ∧ x < p.query.EndTime
  | [], _, _, _, _, hl, _ => by simp at hl
  | [a], x, last, _, hh, hl, hx => by
    simp only [List.getLast?_singleton, Option.some.injEq] at hl
    subst hl
    exact ⟨a, List.mem_singleton_self a, hh a rfl, hx⟩
  | a :: c :: l, x, last, hc, hh, hl, hx => by
    by_cases hxa : x < a.query.EndTime
    · exact ⟨a, List.mem_cons_self _ _, hh a rfl, hxa⟩
    · have hca : c.query.StartTime ≤ a.query.EndTime := (List.chain'_cons.mp hc).1
      rw [List.getLast?_cons_cons] at hl
      obtain ⟨p, hp, h⟩ := cover_of_chain (c :: l) x last (List.chain'_cons.mp hc).2
        (fun p hp => by
          simp only [List.head?_cons, Option.some.injEq] at hp
          subst hp
          omega)
        hl hx
      exact ⟨p, List.mem_cons_of_mem _ hp, h⟩

/-! ## `run` and its loop -/

/-- When the client is available, the trace of `run` is the loop's trace from the
initial bound "now minus one nanosecond", with the encoder the colour setting selects. -/
theorem run_trace (env : Env) (opts : Options) (script : List Tick)
    (h : env.clientErr = none) :
    (run env opts script).trace =
      runLoop (if env.colorEnabled then env.colorEncode else env.plainEncode) env.jsonName opts
        (env.startNow - 1) script := by
  simp [run, h]

/-! ## C1: the window tracker -/

/-- C1: the `i`-th query of a run is issued for the window whose end is the clock
reading of that iteration and whose start is the current bound: the initial bound for
the first query, and afterwards the value `lastRequest` had at the end of the previous
iteration. The window that follows a poll starts at the timestamp of the last returned
match plus one nanosecond when the poll's result has at least one match, and at the
same start as before when the result is `nil` or has no matches; the same holds of
`lastRequest` itself after every poll that does not end the run with an error. In the
spec's scenario (initial bound 0, event at `t = 1` in window `[0,2)`, then two empty
polls) the windows are `[0,2)`, `[2,4)`, `[2,6)`. -/
theorem C1_window_tracking (enc : EncValue → Option GoError) (jn : String) (opts : Options)
    (b : Int) (script : List Tick) (i : Nat) (p : PollRecord)
    (hp : (runLoop enc jn opts b script).polls[i]? = some p) :
    (∃ tk, script[i]? = some tk ∧ p.resp = tk.resp ∧ p.query.EndTime = tk.now) ∧
    (i = 0 → p.query.StartTime = b) ∧
    (∀ q, (runLoop enc jn opts b script).polls[i + 1]? = some q →
      q.query.StartTime = p.lastRequest ∧
      (∀ r last, p.resp.res = some r → r.Matches.getLast? = some last →
        q.query.StartTime = last.Time + 1) ∧
      (∀ r, p.resp.res = some r → r.Matches = [] → q.query.StartTime = p.query.StartTime) ∧
      (p.resp.res = none → q.query.StartTime = p.query.StartTime)) ∧
    (isFatal p.resp.err = false →
      (∀ r last, p.resp.res = some r → r.Matches.getLast? = some last →
        p.lastRequest = last.Time + 1) ∧
      (∀ r, p.resp.res = some r → r.Matches = [] → p.lastRequest = p.query.StartTime) ∧
      (p.resp.res = none → p.lastRequest = p.query.StartTime)) ∧
    (run (envAt 1) tableOpts scenarioScript).trace.windows = [⟨0, 2⟩, ⟨2, 4⟩, ⟨2, 6⟩] := by
  have hbound : isFatal p.resp.err = false →
      (∀ r last, p.resp.res = some r → r.Matches.getLast? = some last →
        p.lastRequest = last.Time + 1) ∧
      (∀ r, p.resp.res = some r → r.Matches = [] → p.lastRequest = p.query.StartTime) ∧
      (p.resp.res = none → p.lastRequest = p.query.StartTime) := by
    intro hf
    obtain ⟨tk, -, hsound, -, hresp⟩ :=
      polls_sound enc jn opts script b p (List.getElem?_mem hp)
    rw [hresp] at hf
    rw [loopBody_ok enc jn opts _ tk hf] at hsound
    have hlr : p.lastRequest = (processResult enc jn opts p.query.StartTime p.resp.res).1 := by
      rw [hresp]
      exact congrArg PollRecord.lastRequest hsound
    refine ⟨?_, ?_, ?_⟩
    · intro r last hr hl
      rw [hlr, hr, processResult_matches enc jn opts _ r last hl]
    · intro r hr he
      have : r = ⟨[]⟩ := by
        cases r
        simp only at he
        rw [he]
      rw [hlr, hr, this, processResult_empty]
    · intro hr
      rw [hlr, hr, processResult_none]
  refine ⟨polls_script enc jn opts script b i p hp, ?_, ?_, hbound, by decide⟩
  · intro hi
    subst hi
    apply polls_head enc jn opts script b p
    rw [List.head?_eq_getElem?]
    exact hp
  · intro q hq
    have hch := chain_getElem? _ (polls_chain enc jn opts script b) i p q hp hq
    have hb := hbound hch.1
    refine ⟨hch.2, ?_, ?_, ?_⟩
    · intro r last hr hl
      rw [hch.2]
      exact hb.1 r last hr hl
    · intro r hr he
      rw [hch.2]
      exact hb.2.1 r hr he
    · intro hr
      rw [hch.2]
      exact hb.2.2 hr

/-- C1 at the scenario: the poll for `[0,2)` returned an event at `t = 1`, and the
window that follows it starts at `2`. -/
theorem C1_window_tracking_witness :
    (runLoop encOk "json" tableOpts 0 scenarioScript).polls[0]? =
        some ⟨⟨0, 2⟩, ok [ev 1], [ev 1],
          [.timePrefix 1, .encode (.data [("msg", "x")]) none, .newline], 2⟩ ∧
      (runLoop encOk "json" tableOpts 0 scenarioScript).polls[1]? =
        some ⟨⟨2, 4⟩, ok [], [], [], 2⟩ ∧
      (⟨2, 4⟩ : Query).StartTime = (ev 1).Time + 1 :=
  ⟨by decide, by decide,
    ((C1_window_tracking encOk "json" tableOpts 0 scenarioScript 0
      ⟨⟨0, 2⟩, ok [ev 1], [ev 1],
        [.timePrefix 1, .encode (.data [("msg", "x")]) none, .newline], 2⟩
      (by decide)).2.2.1 ⟨⟨2, 4⟩, ok [], [], [], 2⟩ (by decide)).2.1
      ⟨[ev 1]⟩ (ev 1) (by decide) (by decide)⟩

/-! ## C2: fatal query errors -/

/-- C2: when the loop reaches a poll (it was still looping after the ticks `pre`) and
that poll's query returns an error that is neither deadline-exceeded nor cancelled,
`run` returns exactly that error; the poll is recorded with no entries ranged over and
no output, it is the last poll of the run whatever ticks `post` would have followed,
and the run's output is the output produced before that poll. -/
theorem C2_fatal_error_stops (enc : EncValue → Option GoError) (jn : String) (opts : Options)
    (b : Int) (pre post : List Tick) (tk : Tick) (e : GoError)
    (herr : tk.resp.err = some e)
    (hd : errorsIs e .deadlineExceeded = false) (hc : errorsIs e .canceled = false)
    (hreach : (runLoop enc jn opts b pre).ret = none) :
    (runLoop enc jn opts b (pre ++ tk :: post)).ret = some (some e) ∧
    (runLoop enc jn opts b (pre ++ tk :: post)).polls =
      (runLoop enc jn opts b pre).polls ++
        [⟨⟨finalBound b (runLoop enc jn opts b pre).polls, tk.now⟩, tk.resp, [], [],
          finalBound b (runLoop enc jn opts b pre).polls⟩] ∧
    (runLoop enc jn opts b (pre ++ tk :: post)).output = (runLoop enc jn opts b pre).output ∧
    encoded (runLoop enc jn opts b (pre ++ tk :: post)).output =
      encoded (runLoop enc jn opts b pre).output := by
  have hf : isFatal tk.resp.err = true := by
    rw [herr]; simp [isFatal, hd, hc]
  have hstep := runLoop_cons_ret enc jn opts
    (finalBound b (runLoop enc jn opts b pre).polls) tk post _ _
    (loopBody_fatal enc jn opts _ tk hf)
  have hrun := runLoop_append enc jn opts pre (tk :: post) b
  rw [if_pos hreach, hstep] at hrun
  have hout : (runLoop enc jn opts b (pre ++ tk :: post)).output =
      (runLoop enc jn opts b pre).output := by
    rw [hrun]
    simp [Trace.output]
  refine ⟨?_, ?_, hout, by rw [hout]⟩
  · rw [hrun, herr]
  · rw [hrun]

/-- C2 on a script whose second query fails with an authentication error: the run
returns that error after two queries and its only output is the first poll's event. -/
theorem C2_fatal_error_stops_witness :
    (runLoop encOk "json" tableOpts 0 fatalScript).ret = some (some (.other "401 unauthorized")) ∧
    (runLoop encOk "json" tableOpts 0 fatalScript).windows = [⟨0, 2⟩, ⟨2, 4⟩] ∧
    encoded (runLoop encOk "json" tableOpts 0 fatalScript).output = [.data [("msg", "x")]] := by
  have h := C2_fatal_error_stops encOk "json" tableOpts 0 [⟨2, ok [ev 1], tickOnly⟩]
    [⟨6, ok [ev 5], tickOnly⟩] ⟨4, failed (.other "401 unauthorized"), tickOnly⟩
    (.other "401 unauthorized") (by decide) (by decide) (by decide) (by decide)
  exact ⟨h.1, by decide, by decide⟩

/-! ## C3: recoverable query errors -/

/-- C3, as stated, fails: a query that returns a deadline-exceeded error together with
a non-nil result holding an event at `t = 1` has that event passed to the encoder, and
the next window starts at `2`, not at `0`. -/
theorem C3_counterexample :
    lateResultScript[0]?.map (fun tk => tk.resp.err) = some (some .deadlineExceeded) ∧
    errorsIs .deadlineExceeded .deadlineExceeded = true ∧
    encoded (runLoop encOk "json" tableOpts 0 lateResultScript).output = [.data [("msg", "x")]] ∧
    (runLoop encOk "json" tableOpts 0 lateResultScript).windows = [⟨0, 2⟩, ⟨2, 4⟩] := by
  decide

/-- C3 (amended): for every poll whose query returns a deadline-exceeded or cancelled
error, whatever result accompanies it, `run` does not return an error at that poll (if
the run returns an error at all, it does so at a later poll); and when the accompanying
result is `nil` or has no matches, nothing is ranged over, nothing is written, the bound
is unchanged and the next window has the same start as this one. -/
theorem C3_recoverable_error (enc : EncValue → Option GoError) (jn : String) (opts : Options)
    (b : Int) (script : List Tick) (i : Nat) (p : PollRecord) (e : GoError)
    (hp : (runLoop enc jn opts b script).polls[i]? = some p)
    (herr : p.resp.err = some e)
    (hrec : errorsIs e .deadlineExceeded = true ∨ errorsIs e .canceled = true) :
    (∀ e2, (runLoop enc jn opts b script).ret = some (some e2) →
      i + 1 < (runLoop enc jn opts b script).polls.length) ∧
    ((p.resp.res = none ∨ p.resp.res = some ⟨[]⟩) →
      p.emitted = [] ∧ p.out = [] ∧ p.lastRequest = p.query.StartTime ∧
      ∀ q, (runLoop enc jn opts b script).polls[i + 1]? = some q →
        q.query.StartTime = p.query.StartTime) := by
  have hf : isFatal p.resp.err = false := by
    rw [herr]
    rcases hrec with h | h <;> simp [isFatal, h]
  constructor
  · intro e2 hret
    have hlt : i < (runLoop enc jn opts b script).polls.length := by
      by_contra hge
      rw [List.getElem?_eq_none (by omega)] at hp
      simp at hp
    by_contra hnot
    have hlast := ret_error_last enc jn opts script b e2 i p hret hp (by omega)
    rw [hlast.2] at hf
    simp at hf
  · intro hres
    obtain ⟨tk, -, hsound, -, hresp⟩ :=
      polls_sound enc jn opts script b p (List.getElem?_mem hp)
    rw [hresp] at hf
    rw [loopBody_ok enc jn opts _ tk hf, ← hresp] at hsound
    have hpr : processResult enc jn opts p.query.StartTime p.resp.res =
        (p.query.StartTime, [], []) := by
      rcases hres with h | h <;> rw [h] <;> rfl
    rw [hpr] at hsound
    have h1 : p.emitted = [] := congrArg PollRecord.emitted hsound
    have h2 : p.out = [] := congrArg PollRecord.out hsound
    have h3 : p.lastRequest = p.query.StartTime := congrArg PollRecord.lastRequest hsound
    refine ⟨h1, h2, h3, ?_⟩
    intro q hq
    rw [← h3]
    exact (chain_getElem? _ (polls_chain enc jn opts script b) i p q hp hq).2

/-- C3 (amended) at the spec's timeout scenario: the query for `[0,2)` exceeds its
deadline without a result; nothing is written and the second window is `[0,4)`. -/
theorem C3_recoverable_error_witness :
    (runLoop encOk "json" tableOpts 0 timeoutScript).polls[0]? =
        some ⟨⟨0, 2⟩, failed .deadlineExceeded, [], [], 0⟩ ∧
    (runLoop encOk "json" tableOpts 0 timeoutScript).polls[1]? =
        some ⟨⟨0, 4⟩, ok [], [], [], 0⟩ ∧
    (⟨0, 4⟩ : Query).StartTime = (⟨0, 2⟩ : Query).StartTime :=
  ⟨by decide, by decide,
    ((C3_recoverable_error encOk "json" tableOpts 0 timeoutScript 0
      ⟨⟨0, 2⟩, failed .deadlineExceeded, [], [], 0⟩ .deadlineExceeded
      (by decide) (by decide) (by decide)).2 (by decide)).2.2.2
      ⟨⟨0, 4⟩, ok [], [], [], 0⟩ (by decide)⟩

/-! ## C4: no event is emitted twice -/

/-- C4: in a run where every query returns only events whose timestamps lie in the
queried window and returns them in non-decreasing timestamp order, every entry ranged
over (and so emitted) in a later poll has a timestamp strictly greater than that of
every entry ranged over in an earlier poll; in particular no entry of an earlier poll
occurs again in a later one. -/
theorem C4_no_duplicate (enc : EncValue → Option GoError) (jn : String) (opts : Options)
    (b : Int) (script : List Tick)
    (hwin : ∀ p ∈ (runLoop enc jn opts b script).polls, InWindow p)
    (hord : ∀ p ∈ (runLoop enc jn opts b script).polls, Ordered p)
    (i j : Nat) (p q : PollRecord) (hij : i < j)
    (hp : (runLoop enc jn opts b script).polls[i]? = some p)
    (hq : (runLoop enc jn opts b script).polls[j]? = some q) :
    (∀ a ∈ p.emitted, ∀ c ∈ q.emitted, a.Time < c.Time) ∧
    (∀ a ∈ p.emitted, a ∉ q.emitted) := by
  have hpm := List.getElem?_mem hp
  have hqm := List.getElem?_mem hq
  have hpw := chain_pairwise _ (polls_chain enc jn opts script b)
    (fun r hr => start_le_bound enc jn opts script b r hr (hwin r hr))
  have hpq : p.lastRequest ≤ q.query.StartTime := pairwise_getElem? _ hpw i j p q hij hp hq
  have hlt : ∀ a ∈ p.emitted, ∀ c ∈ q.emitted, a.Time < c.Time := by
    intro a ha c hc
    have h1 := emitted_lt_bound enc jn opts script b p hpm (hord p hpm) a ha
    have h2 := (hwin q hqm c (emitted_subset enc jn opts script b q hqm c hc)).1
    omega
  refine ⟨hlt, ?_⟩
  intro a ha hmem
  exact lt_irrefl _ (hlt a ha a hmem)

/-- C4 on a run of two busy polls: the events of the first poll (`t = 0, 1`) precede
those of the second (`t = 2, 3, 3`). -/
theorem C4_no_duplicate_witness :
    (runLoop encOk "json" tableOpts 0 busyScript).polls[0]?.map (fun p => p.emitted) =
        some [ev 0, ev 1] ∧
    (runLoop encOk "json" tableOpts 0 busyScript).polls[1]?.map (fun p => p.emitted) =
        some [ev 2, ev 3, ev 3] ∧
    (ev 1).Time < (ev 2).Time := by
  refine ⟨by decide, by decide, ?_⟩
  have h := C4_no_duplicate encOk "json" tableOpts 0 busyScript (by decide) (by decide) 0 1
    ⟨⟨0, 2⟩, ok [ev 0, ev 1], [ev 0, ev 1],
      [ev 0, ev 1].flatMap (emitEntry encOk "json" tableOpts), 2⟩
    ⟨⟨2, 4⟩, ok [ev 2, ev 3, ev 3], [ev 2, ev 3, ev 3],
      [ev 2, ev 3, ev 3].flatMap (emitEntry encOk "json" tableOpts), 4⟩
    (by decide) (by decide) (by decide)
  exact h.1 (ev 1) (by decide) (ev 2) (by decide)

/-! ## C5: order preservation -/

/-- C5: for every run in which a query that fails fatally comes back without matches
(the client hands back events or an error), and for every encoder, whatever its calls
return, the entries ranged over are exactly the concatenation, in poll order, of each
poll's returned matches in the order the query returned them; the values handed to the
encoder are those entries themselves in the structured format and their payloads
otherwise, one per entry in the same order, with nothing dropped or reordered. When
each poll's matches are non-decreasing in timestamp and lie within the queried window,
the whole sequence is non-decreasing in timestamp. -/
theorem C5_order_preservation (enc : EncValue → Option GoError) (jn : String) (opts : Options)
    (b : Int) (script : List Tick)
    (hnil : ∀ p ∈ (runLoop enc jn opts b script).polls,
      isFatal p.resp.err = true → p.resp.matches = []) :
    (runLoop enc jn opts b script).polls.flatMap (fun p => p.emitted) =
      (runLoop enc jn opts b script).polls.flatMap (fun p => p.resp.matches) ∧
    (opts.Format = jn →
      encoded (runLoop enc jn opts b script).output =
        ((runLoop enc jn opts b script).polls.flatMap (fun p => p.resp.matches)).map
          EncValue.entry) ∧
    (opts.Format ≠ jn →
      encoded (runLoop enc jn opts b script).output =
        ((runLoop enc jn opts b script).polls.flatMap (fun p => p.resp.matches)).map
          (fun e => EncValue.data e.Data)) ∧
    ((∀ p ∈ (runLoop enc jn opts b script).polls, InWindow p) →
      (∀ p ∈ (runLoop enc jn opts b script).polls, Ordered p) →
      ((runLoop enc jn opts b script).polls.flatMap (fun p => p.resp.matches)).Pairwise
        (fun a c => a.Time ≤ c.Time)) := by
  have hem := emitted_eq_matches enc jn opts script b _ (fun p hp => hp) hnil
  have hout : encoded (runLoop enc jn opts b script).output =
      ((runLoop enc jn opts b script).polls.flatMap (fun p => p.resp.matches)).map
        (fun e => if opts.Format = jn then EncValue.entry e else EncValue.data e.Data) := by
    unfold Trace.output
    rw [output_eq_flatMap enc jn opts script b _ (fun p hp => hp), encoded_flatMap_emitEntry,
      hem]
  refine ⟨hem, ?_, ?_, ?_⟩
  · intro hfmt
    rw [hout]
    simp [hfmt]
  · intro hfmt
    rw [hout]
    simp [hfmt]
  · intro hwin hord
    rw [← hem, List.pairwise_flatMap]
    constructor
    · intro p hp
      have hfacts := (poll_facts enc jn opts script b p hp).1
      by_cases hf : isFatal p.resp.err = true
      · rw [hfacts]; simp [hf]
      · rw [hfacts]; simpa [hf] using hord p hp
    · have hpw := chain_pairwise _ (polls_chain enc jn opts script b)
        (fun r hr => start_le_bound enc jn opts script b r hr (hwin r hr))
      refine List.Pairwise.imp_of_mem ?_ hpw
      intro p q hp hq hpq a ha c hc
      have h1 := emitted_lt_bound enc jn opts script b p hp (hord p hp) a ha
      have h2 := (hwin q hq c (emitted_subset enc jn opts script b q hq c hc)).1
      omega

/-- C5 on a run of two busy polls with an encoder that fails on every call: the five
matches returned reach the encoder, in the order returned, which is timestamp order. -/
theorem C5_order_preservation_witness :
    (runLoop encFail "json" jsonOpts 0 busyScript).polls.flatMap (fun p => p.resp.matches) =
        [ev 0, ev 1, ev 2, ev 3, ev 3] ∧
    encoded (runLoop encFail "json" jsonOpts 0 busyScript).output =
        [ev 0, ev 1, ev 2, ev 3, ev 3].map EncValue.entry ∧
    [ev 0, ev 1, ev 2, ev 3, ev 3].Pairwise (fun a c => a.Time ≤ c.Time) := by
  have h := C5_order_preservation encFail "json" jsonOpts 0 busyScript (by decide)
  have hm : (runLoop encFail "json" jsonOpts 0 busyScript).polls.flatMap
      (fun p => p.resp.matches) = [ev 0, ev 1, ev 2, ev 3, ev 3] := by decide
  rw [hm] at h
  exact ⟨hm, h.2.1 (by decide), h.2.2.2 (by decide) (by decide)⟩

/-! ## C6: consecutive windows -/

/-- C6, as stated, fails: after an idle poll on `[0,2)` the next window is `[0,4)`; its
start `0` is less than the first window's end `2`, and the instant `1` belongs to both. -/
theorem C6_counterexample :
    (runLoop encOk "json" tableOpts 0 idleScript).windows = [⟨0, 2⟩, ⟨0, 4⟩] ∧
    (⟨0, 4⟩ : Query).StartTime < (⟨0, 2⟩ : Query).EndTime ∧
    ((⟨0, 2⟩ : Query).StartTime ≤ 1 ∧ 1 < (⟨0, 2⟩ : Query).EndTime) ∧
    ((⟨0, 4⟩ : Query).StartTime ≤ 1 ∧ 1 < (⟨0, 4⟩ : Query).EndTime) := by
  decide

/-- C6 (amended): for every two windows issued consecutively, the second starts at the
bound advanced from the first window's query outcome. When the events returned for the
first window lie inside it, the second window starts no earlier than the first, and,
the first window not being inverted, no later than the first window's end: no time
between the two windows is skipped, but they may overlap. -/
theorem C6_consecutive_windows (enc : EncValue → Option GoError) (jn : String) (opts : Options)
    (b : Int) (script : List Tick) (i : Nat) (p q : PollRecord)
    (hp : (runLoop enc jn opts b script).polls[i]? = some p)
    (hq : (runLoop enc jn opts b script).polls[i + 1]? = some q)
    (hw : InWindow p) :
    q.query.StartTime = p.lastRequest ∧
    p.query.StartTime ≤ q.query.StartTime ∧
    (p.query.StartTime ≤ p.query.EndTime → q.query.StartTime ≤ p.query.EndTime) := by
  have hpm := List.getElem?_mem hp
  have hch := (chain_getElem? _ (polls_chain enc jn opts script b) i p q hp hq).2
  refine ⟨hch, ?_, ?_⟩
  · rw [hch]
    exact start_le_bound enc jn opts script b p hpm hw
  · intro hse
    rw [hch]
    exact bound_le_end enc jn opts script b p hpm hw hse

/-- C6 (amended) at the spec's scenario: window `[0,2)` returned an event at `t = 1`,
and the next window `[2,4)` starts inside `[0,2]`. -/
theorem C6_consecutive_windows_witness :
    (runLoop encOk "json" tableOpts 0 scenarioScript).windows = [⟨0, 2⟩, ⟨2, 4⟩, ⟨2, 6⟩] ∧
    (⟨0, 2⟩ : Query).StartTime ≤ (⟨2, 4⟩ : Query).StartTime ∧
    (⟨2, 4⟩ : Query).StartTime ≤ (⟨0, 2⟩ : Query).EndTime := by
  have h := C6_consecutive_windows encOk "json" tableOpts 0 scenarioScript 0
    ⟨⟨0, 2⟩, ok [ev 1], [ev 1],
      [.timePrefix 1, .encode (.data [("msg", "x")]) none, .newline], 2⟩
    ⟨⟨2, 4⟩, ok [], [], [], 2⟩ (by decide) (by decide) (by decide)
  exact ⟨by decide, h.2.1, h.2.2 (by decide)⟩

/-! ## C7: no gap -/

/-- C7: in a run whose polls all succeed, whose clock readings (the one taken at loop
start and the one taken for each poll) are non-decreasing, and in which every returned
event's timestamp lies inside the window it was queried for, every instant from the
initial bound `t0` (the reading at loop start minus one nanosecond) up to, but
excluding, the time of the last poll lies in at least one issued window; and each
window's start is at most the previous window's end. -/
theorem C7_no_gap (env : Env) (opts : Options) (script : List Tick)
    (hclient : env.clientErr = none)
    (_hsucc : ∀ p ∈ (run env opts script).trace.polls, p.resp.err = none)
    (hwin : ∀ p ∈ (run env opts script).trace.polls, InWindow p)
    (hclock : List.Pairwise (fun s t => s ≤ t)
      (env.startNow :: (run env opts script).trace.polls.map (fun p => p.query.EndTime))) :
    (∀ (x : Int) (last : PollRecord), (run env opts script).trace.polls.getLast? = some last →
      env.startNow - 1 ≤ x → x < last.query.EndTime →
      ∃ p ∈ (run env opts script).trace.polls, p.query.StartTime ≤ x ∧ x < p.query.EndTime) ∧
    List.Chain' (fun p q => q.query.StartTime ≤ p.query.EndTime)
      (run env opts script).trace.polls := by
  replace hclock := hclock.chain'
  rw [run_trace env opts script hclient] at hwin hclock ⊢
  generalize (if env.colorEnabled then env.colorEncode else env.plainEncode) = enc
    at hwin hclock ⊢
  have hhead : ∀ p, (runLoop enc env.jsonName opts (env.startNow - 1) script).polls.head? = some p →
      p.query.StartTime = env.startNow - 1 :=
    fun p hp => polls_head enc env.jsonName opts script (env.startNow - 1) p hp
  have hends : List.Chain' (fun p q : PollRecord => p.query.EndTime ≤ q.query.EndTime)
      (runLoop enc env.jsonName opts (env.startNow - 1) script).polls := by
    have := (List.chain'_cons'.mp hclock).2
    rwa [List.chain'_map] at this
  have hfirst : ∀ p, (runLoop enc env.jsonName opts (env.startNow - 1) script).polls.head? = some p →
      p.query.StartTime ≤ p.query.EndTime := by
    intro p hp
    have h1 := hhead p hp
    have h2 := (List.chain'_cons'.mp hclock).1 p.query.EndTime (by
      rw [List.head?_map, hp]; rfl)
    omega
  have hchain := chain_start_le_end _
    (polls_chain enc env.jsonName opts script (env.startNow - 1))
    (fun p hp hse => bound_le_end enc env.jsonName opts script (env.startNow - 1) p hp
      (hwin p hp) hse)
    hends hfirst
  refine ⟨?_, hchain⟩
  intro x last hl hx0 hx1
  exact cover_of_chain _ x last hchain (fun p hp => by rw [hhead p hp]; exact hx0) hl hx1

/-- C7 on a run started at clock reading `1` (initial bound `0`) with polls at `2`,
`4` and `6`: the instant `3` lies in an issued window. -/
theorem C7_no_gap_witness :
    (run (envAt 1) tableOpts busyScript).trace.windows = [⟨0, 2⟩, ⟨2, 4⟩, ⟨4, 6⟩] ∧
    ∃ p ∈ (run (envAt 1) tableOpts busyScript).trace.polls,
      p.query.StartTime ≤ 3 ∧ 3 < p.query.EndTime := by
  have h := C7_no_gap (envAt 1) tableOpts busyScript rfl (by decide) (by decide) (by decide)
  exact ⟨by decide, h.1 3 ⟨⟨4, 6⟩, ok [], [], [], 4⟩ (by decide) (by decide) (by decide)⟩

/-! ## C8: the bound after a poll -/

/-- C8, as stated, fails: from bound `10`, a successful poll for `[10,12)` whose result
holds a match with timestamp `3` sets the bound to `4`, which is not
`max 10 (3 + 1) = 10` and is lower than the old bound; the next window is `[4,14)`. -/
theorem C8_counterexample :
    (runLoop encOk "json" tableOpts 10 staleScript).windows = [⟨10, 12⟩, ⟨4, 14⟩] ∧
    (4 : Int) ≠ max 10 ((ev 3).Time + 1) ∧ (4 : Int) < 10 := by
  decide

/-- C8 (amended): after every poll that does not end the run with an error and whose
result holds at least one match, the new bound is the timestamp of the last returned
match plus one nanosecond, for every query result. It equals
`max (old bound) (that timestamp + 1ns)` when that timestamp plus one nanosecond is not
below the old bound, in particular when the returned matches lie inside the queried
window; and in a run whose polls all return matches inside their windows, no poll
lowers the bound and the starts of the windows never decrease. -/
theorem C8_bound_advance (enc : EncValue → Option GoError) (jn : String) (opts : Options)
    (b : Int) (script : List Tick) (i : Nat) (p : PollRecord) (r : Result) (last : Entry)
    (hp : (runLoop enc jn opts b script).polls[i]? = some p)
    (hf : isFatal p.resp.err = false)
    (hr : p.resp.res = some r) (hl : r.Matches.getLast? = some last) :
    p.lastRequest = last.Time + 1 ∧
    (p.query.StartTime ≤ last.Time + 1 →
      p.lastRequest = max p.query.StartTime (last.Time + 1)) ∧
    (InWindow p → p.lastRequest = max p.query.StartTime (last.Time + 1)) ∧
    ((∀ p2 ∈ (runLoop enc jn opts b script).polls, InWindow p2) →
      (∀ p2 ∈ (runLoop enc jn opts b script).polls, p2.query.StartTime ≤ p2.lastRequest) ∧
      (runLoop enc jn opts b script).polls.Pairwise
        (fun p1 p2 => p1.query.StartTime ≤ p2.query.StartTime)) := by
  have hpm := List.getElem?_mem hp
  have hfacts := poll_facts enc jn opts script b p hpm
  have hem : p.emitted = r.Matches := by
    rw [hfacts.1, hf]
    simp [Response.matches, hr]
  have hnew : p.lastRequest = last.Time + 1 := by
    rw [hfacts.2.2, hem, hl]
  refine ⟨hnew, ?_, ?_, ?_⟩
  · intro hle
    rw [hnew, max_eq_right hle]
  · intro hw
    have hmem : last ∈ p.resp.matches := by
      simp only [Response.matches, hr]
      exact List.mem_of_getLast?_eq_some hl
    have := (hw last hmem).1
    rw [hnew, max_eq_right (by omega)]
  · intro hwin
    have hstep : ∀ p2 ∈ (runLoop enc jn opts b script).polls,
        p2.query.StartTime ≤ p2.lastRequest :=
      fun p2 h2 => start_le_bound enc jn opts script b p2 h2 (hwin p2 h2)
    refine ⟨hstep, ?_⟩
    have hpw := chain_pairwise _ (polls_chain enc jn opts script b) hstep
    refine List.Pairwise.imp_of_mem ?_ hpw
    intro p1 p2 h1 _ h12
    have := hstep p1 h1
    omega

/-- C8 (amended) at the spec's scenario: the poll for `[0,2)` returned an event at
`t = 1`, and the bound becomes `2 = max 0 (1 + 1)`. -/
theorem C8_bound_advance_witness :
    (runLoop encOk "json" tableOpts 0 scenarioScript).polls[0]?.map (fun p => p.lastRequest) =
      some 2 ∧
    (2 : Int) = max 0 ((ev 1).Time + 1) := by
  have h := C8_bound_advance encOk "json" tableOpts 0 scenarioScript 0
    ⟨⟨0, 2⟩, ok [ev 1], [ev 1],
      [.timePrefix 1, .encode (.data [("msg", "x")]) none, .newline], 2⟩
    ⟨[ev 1]⟩ (ev 1) (by decide) (by decide) (by decide) (by decide)
  exact ⟨by decide, h.2.2.1 (by decide)⟩

/-! ## C9: what is serialized -/

/-- C9, as stated, fails: with `Format` equal to the JSON format name, the value handed
to the encoder for an event is the whole entry (timestamp, system time, row id and
payload), which differs from its payload alone. -/
theorem C9_counterexample :
    jsonOpts.Format = (envAt 1).jsonName ∧
    encoded (run (envAt 1) jsonOpts richScript).trace.output = [EncValue.entry richEntry] ∧
    EncValue.entry richEntry ≠ EncValue.data richEntry.Data := by
  decide

/-- C9 (amended): with `Format` equal to the JSON format name, what a poll writes is,
for every entry ranged over and in order, one `Encode` of the whole entry followed by
one line terminator; with any other `Format` it is the formatted timestamp, one
`Encode` of the entry's payload alone, and one line terminator. -/
theorem C9_structured_output (enc : EncValue → Option GoError) (jn : String) (opts : Options)
    (b : Int) (script : List Tick) (p : PollRecord)
    (hp : p ∈ (runLoop enc jn opts b script).polls) :
    (opts.Format = jn →
      p.out = p.emitted.flatMap
        (fun e => [OutEvent.encode (.entry e) (enc (.entry e)), OutEvent.newline])) ∧
    (opts.Format ≠ jn →
      p.out = p.emitted.flatMap
        (fun e => [OutEvent.timePrefix e.Time, OutEvent.encode (.data e.Data) (enc (.data e.Data)),
          OutEvent.newline])) := by
  have hout := (poll_facts enc jn opts script b p hp).2.1
  constructor
  · intro hfmt
    rw [hout]
    congr 1
    funext e
    simp [emitEntry, hfmt]
  · intro hfmt
    rw [hout]
    congr 1
    funext e
    simp [emitEntry, hfmt]

/-- C9 (amended) on one poll returning one entry in the structured format: the output
is one `Encode` of the whole entry and one line terminator. -/
theorem C9_structured_output_witness :
    (runLoop encOk "json" jsonOpts 0 richScript).polls =
        [⟨⟨0, 2⟩, ok [richEntry], [richEntry],
          [.encode (.entry richEntry) none, .newline], 2⟩] ∧
    [OutEvent.encode (.entry richEntry) none, OutEvent.newline] =
      [richEntry].flatMap
        (fun e => [OutEvent.encode (.entry e) (encOk (.entry e)), OutEvent.newline]) :=
  ⟨by decide,
    (C9_structured_output encOk "json" jsonOpts 0 richScript
      ⟨⟨0, 2⟩, ok [richEntry], [richEntry], [.encode (.entry richEntry) none, .newline], 2⟩
      (by decide)).1 (by decide)⟩

/-! ## C10: cancellation -/

/-- C10, as stated, fails: the cancellation signal has fired when the loop reaches its
first wait step, a tick is pending at the same moment, and the `select` proceeds with
the tick; the loop then issues a second query (for `[0,3)`) before it returns. -/
theorem C10_counterexample :
    raceScript[0]?.map (fun tk => tk.wait.doneReady) = some true ∧
    raceScript[0]?.map (fun tk => tk.wait.tickReady) = some true ∧
    (runLoop encOk "json" tableOpts 0 raceScript).windows = [⟨0, 2⟩, ⟨0, 3⟩] ∧
    (runLoop encOk "json" tableOpts 0 raceScript).ret = some none := by
  decide

/-- C10 (amended): when the loop reaches a poll (it was still looping after the ticks
`pre`), the poll's query succeeds or returns a cancelled or deadline-exceeded error, and
at the wait step that follows the cancellation signal has fired while either no tick is
pending or the `select` proceeds with the cancellation case, then `run` returns `nil`
at that wait step: the poll is the last one, and no query is issued for any tick `post`
that would have followed. A cancelled or deadline-exceeded error is never fatal, so a
query cancelled in flight always leads to that wait step. -/
theorem C10_cancellation (enc : EncValue → Option GoError) (jn : String) (opts : Options)
    (b : Int) (pre post : List Tick) (tk : Tick)
    (hreach : (runLoop enc jn opts b pre).ret = none)
    (herr : tk.resp.err = none ∨ ∃ e, tk.resp.err = some e ∧
      (errorsIs e .deadlineExceeded = true ∨ errorsIs e .canceled = true))
    (hdone : tk.wait.doneReady = true)
    (hpick : tk.wait.tickReady = false ∨ tk.wait.pick = .done) :
    isFatal tk.resp.err = false ∧
    (runLoop enc jn opts b (pre ++ tk :: post)).ret = some none ∧
    (runLoop enc jn opts b (pre ++ tk :: post)).polls.length = pre.length + 1 ∧
    (runLoop enc jn opts b (pre ++ tk :: post)).windows =
      (runLoop enc jn opts b pre).windows ++
        [⟨finalBound b (runLoop enc jn opts b pre).polls, tk.now⟩] := by
  have hf : isFatal tk.resp.err = false := by
    rcases herr with h | ⟨e, h, hrec⟩
    · rw [h]; rfl
    · rw [h]
      rcases hrec with h2 | h2 <;> simp [isFatal, h2]
  have hsel : selectCase tk.wait = .done := by
    unfold selectCase
    rw [hdone]
    rcases hpick with h | h
    · rw [h]
    · cases ht : tk.wait.tickReady
      · rfl
      · simp only
        exact h
  have hbody := loopBody_ok enc jn opts (finalBound b (runLoop enc jn opts b pre).polls) tk hf
  rw [hsel] at hbody
  have hstep := runLoop_cons_ret enc jn opts
    (finalBound b (runLoop enc jn opts b pre).polls) tk post _ _ hbody
  have hrun := runLoop_append enc jn opts pre (tk :: post) b
  rw [if_pos hreach, hstep] at hrun
  have hlen : (runLoop enc jn opts b pre).polls.length = pre.length := by
    clear hrun hstep hbody
    induction pre generalizing b with
    | nil => rfl
    | cons t rest ih =>
      rcases hlb : loopBody enc jn opts b t with ⟨r, st⟩
      cases st with
      | ret e2 =>
        rw [runLoop_cons_ret enc jn opts b t rest r e2 hlb] at hreach
        simp at hreach
      | next =>
        rw [runLoop_cons_next enc jn opts b t rest r hlb] at hreach ⊢
        simp only [List.length_cons]
        rw [ih r.lastRequest hreach]
  refine ⟨hf, ?_, ?_, ?_⟩
  · rw [hrun]
  · rw [hrun]
    simp [hlen]
  · rw [hrun]
    simp [Trace.windows]

/-- C10 (amended) on a run cancelled while its second query is in flight: the query
returns a wrapped cancellation error, only the cancellation is ready at the wait step,
and the run returns `nil` after two queries. -/
theorem C10_cancellation_witness :
    (runLoop encOk "json" tableOpts 0 cancelScript).ret = some none ∧
    (runLoop encOk "json" tableOpts 0 cancelScript).polls.length = 2 := by
  have h := C10_cancellation encOk "json" tableOpts 0 [⟨2, ok [ev 1], tickOnly⟩]
    [⟨6, ok [ev 5], tickOnly⟩] ⟨4, failed (.wrap "query failed" .canceled), doneOnly⟩
    (by decide)
    (Or.inr ⟨.wrap "query failed" .canceled, rfl, Or.inr (by decide)⟩)
    (by decide) (Or.inl (by decide))
  exact ⟨h.2.1, h.2.2.1⟩

end Stream

namespace Auth

/-! ## C11: `firstSubDomain` -/

/-- The first piece of a split is what precedes the first separator. -/
theorem splitChars_head (sep : Char) (cs : List Char) :
    ∃ ps, splitChars sep cs = cs.takeWhile (fun c => c ≠ sep) :: ps := by
  induction cs with
  | nil => exact ⟨[], rfl⟩
  | cons c cs ih =>
    obtain ⟨ps, hps⟩ := ih
    by_cases hc : c = sep
    · exact ⟨splitChars sep cs, by simp [splitChars, hc]⟩
    · exact ⟨ps, by simp [splitChars, hc, hps]⟩

/-- On a string that parses, `firstSubDomain` is the first label of the host with
`strings.TrimLeft` applied, the scheme being the cutset. -/
theorem firstSubDomain_parsed (parse : String → Option URL) (s : String) (u : URL)
    (h : parse s = some u) :
    firstSubDomain parse s = TrimLeft (firstLabel u.Host) u.Scheme := by
  obtain ⟨ps, hps⟩ := splitChars_head '.' u.Host.data
  simp [firstSubDomain, h, Split, hps, firstLabel]

/-- C11: for a string that does not parse, `firstSubDomain` returns the empty string.
For a string that parses with scheme `s` and host `h` it returns the first
dot-separated label of `h` after removing every leading character that occurs in `s`
(`strings.TrimLeft` takes the scheme as a set of characters), not the label itself: at
the claim's example, scheme `https` and host `shop.example.com`, the first label is
`shop` and the function returns `op`. -/
theorem C11_firstSubDomain_trims_scheme_letters (parse : String → Option URL) (s : String) :
    (parse s = none → firstSubDomain parse s = "") ∧
    (∀ u, parse s = some u →
      firstSubDomain parse s = TrimLeft (firstLabel u.Host) u.Scheme) ∧
    (parse s = some ⟨"https", "shop.example.com"⟩ →
      firstLabel "shop.example.com" = "shop" ∧ firstSubDomain parse s = "op") := by
  refine ⟨?_, ?_, ?_⟩
  · intro h
    simp [firstSubDomain, h]
  · intro u h
    exact firstSubDomain_parsed parse s u h
  · intro h
    refine ⟨by decide, ?_⟩
    rw [firstSubDomain_parsed parse s _ h]
    decide

/-- C11 at `https://shop.example.com`: the result is `op`. -/
theorem C11_firstSubDomain_trims_scheme_letters_witness :
    shopParse "https://shop.example.com" = some ⟨"https", "shop.example.com"⟩ ∧
    firstSubDomain shopParse "https://shop.example.com" = "op" :=
  ⟨by decide,
    ((C11_firstSubDomain_trims_scheme_letters shopParse "https://shop.example.com").2.2
      (by decide)).2⟩

end Auth
